import Mathlib

/-!
Verification of the meal-plan tool adapter module (src/tools/mealplan_tools.py).

The module registers four tool operations (get_all_mealplans, create_mealplan,
create_mealplan_bulk, get_todays_mealplan).  Each one forwards its arguments to
a backend fetcher (the MealieFetcher client), serializes the backend result to
JSON text with json.dumps, and converts every raised exception into a uniform
error envelope produced by format_error_response.

The embedding below models:
  * JSON values (Json), Python json.dumps (Json.dumps) and json.loads
    (Json.parse) on the fragment the adapter exchanges: null, booleans,
    integers, strings, arrays and objects.  Floating-point numbers are outside
    the model; dumps uses the default separators and ensure_ascii escaping of
    the Python standard library, parse the default strict decoder.  A lone
    surrogate escape, which Python decodes to a lone-surrogate code unit that
    has no counterpart among Unicode scalar values, makes parse fail instead;
    no output of dumps contains one.
  * the backend fetcher as an arbitrary behaviour: a function from the index
    of the call within one operation invocation and the call made to the
    backend outcome (normal return of a JSON structure, or a raised exception
    carrying its message).
  * the four operations as functions from a behaviour and their arguments to
    the list of backend calls made (in order) and the returned text payload.
-/

namespace MealieMcp

/-- JSON values exchanged between the adapter and the backend fetcher.
Numbers are modelled as integers; see the module comment. -/
inductive Json where
  | null : Json
  | bool (b : Bool) : Json
  | int (n : Int) : Json
  | str (s : String) : Json
  | arr (elems : List Json) : Json
  | obj (members : List (String × Json)) : Json

/-- Lowercase hexadecimal digit, as produced by Python "%04x" formatting. -/
def hexDigitChar (d : Nat) : Char :=
  Char.ofNat (if d < 10 then 48 + d else 87 + d)

/-- Four lowercase hex digits of a number below 0x10000 ("%04x"). -/
def hex4 (n : Nat) : List Char :=
  [hexDigitChar (n / 4096 % 16), hexDigitChar (n / 256 % 16),
   hexDigitChar (n / 16 % 16), hexDigitChar (n % 16)]

/-- Encoding of one character inside a JSON string literal, following
Python json.dumps with its default ensure_ascii=True
(py_encode_basestring_ascii): the two specials and the five short escapes,
printable ASCII verbatim, everything else as a \uXXXX escape, with a
surrogate pair for code points beyond 0xFFFF. -/
def encodeChar (c : Char) : List Char :=
  if c = '"' then ['\\', '"']
  else if c = '\\' then ['\\', '\\']
  else if c = '\x08' then ['\\', 'b']
  else if c = '\t' then ['\\', 't']
  else if c = '\n' then ['\\', 'n']
  else if c = '\x0c' then ['\\', 'f']
  else if c = '\r' then ['\\', 'r']
  else if 32 ≤ c.toNat && c.toNat ≤ 126 then [c]
  else if c.toNat < 65536 then '\\' :: 'u' :: hex4 c.toNat
  else
    '\\' :: 'u' :: hex4 (55296 + (c.toNat - 65536) / 1024) ++
      ('\\' :: 'u' :: hex4 (56320 + (c.toNat - 65536) % 1024))

/-- Encoding of the characters of a JSON string literal body. -/
def encodeChars : List Char → List Char
  | [] => []
  | c :: cs => encodeChar c ++ encodeChars cs

/-- Decimal digits of n, least significant first, with explicit fuel
(any fuel ≥ n yields all digits). -/
def digitsRevAux : Nat → Nat → List Nat
  | 0, _ => []
  | fuel + 1, n => if n = 0 then [] else n % 10 :: digitsRevAux fuel (n / 10)

/-- Decimal notation of a natural number, as Python repr writes it. -/
def natChars (n : Nat) : List Char :=
  if n = 0 then ['0']
  else ((digitsRevAux n n).reverse).map (fun d => Char.ofNat (48 + d))

/-- Decimal notation of an integer, as Python repr writes it. -/
def intChars (n : Int) : List Char :=
  if n < 0 then '-' :: natChars n.natAbs else natChars n.natAbs

mutual
/-- Text of json.dumps with the default separators (", " between items,
": " between a key and its value), as a character list. -/
def printVal : Json → List Char
  | .null => "null".data
  | .bool true => "true".data
  | .bool false => "false".data
  | .int n => intChars n
  | .str s => '"' :: (encodeChars s.data ++ ['"'])
  | .arr xs => '[' :: (printElems xs ++ [']'])
  | .obj kvs => '{' :: (printMembers kvs ++ ['}'])

/-- Array items joined by ", ". -/
def printElems : List Json → List Char
  | [] => []
  | [x] => printVal x
  | x :: y :: ys => printVal x ++ ',' :: ' ' :: printElems (y :: ys)

/-- Object members, each "key": value, joined by ", ". -/
def printMembers : List (String × Json) → List Char
  | [] => []
  | [(k, v)] => '"' :: (encodeChars k.data ++ '"' :: ':' :: ' ' :: printVal v)
  | (k, v) :: m :: ms =>
      ('"' :: (encodeChars k.data ++ '"' :: ':' :: ' ' :: printVal v)) ++
        ',' :: ' ' :: printMembers (m :: ms)
end

/-- Python json.dumps on the modelled fragment. -/
def Json.dumps (j : Json) : String := String.mk (printVal j)

/-- The four whitespace characters the Python JSON decoder skips between
tokens (its WHITESPACE regex). -/
def isWsChar (c : Char) : Bool :=
  c = ' ' || c = '\t' || c = '\n' || c = '\r'

/-- Skipping inter-token whitespace. -/
def skipWs (cs : List Char) : List Char := cs.dropWhile isWsChar

/-- Value of a hexadecimal digit, either case, as Python int(s, 16) reads. -/
def hexDigitVal (c : Char) : Option Nat :=
  if 48 ≤ c.toNat && c.toNat ≤ 57 then some (c.toNat - 48)
  else if 97 ≤ c.toNat && c.toNat ≤ 102 then some (c.toNat - 87)
  else if 65 ≤ c.toNat && c.toNat ≤ 70 then some (c.toNat - 55)
  else none

/-- Prefix one decoded character onto a string-body parse result. -/
def withChar (c : Char) (r : Option (List Char × List Char)) :
    Option (List Char × List Char) :=
  r.map (fun p => (c :: p.1, p.2))

/-- One backslash escape after the backslash, following the strict Python
decoder (py_scanstring): the decoded character and the remaining input.
A \uXXXX escape holding a high surrogate must be followed by a
low-surrogate escape (the pair is recombined); a lone surrogate, which
Python would keep as a lone code unit with no Unicode-scalar counterpart,
fails instead. -/
def decodeEscape : List Char → Option (Char × List Char)
  | [] => none
  | e :: cs =>
    if e = '"' then some ('"', cs)
    else if e = '\\' then some ('\\', cs)
    else if e = '/' then some ('/', cs)
    else if e = 'b' then some ('\x08', cs)
    else if e = 'f' then some ('\x0c', cs)
    else if e = 'n' then some ('\n', cs)
    else if e = 'r' then some ('\r', cs)
    else if e = 't' then some ('\t', cs)
    else if e = 'u' then
      match cs with
      | h1 :: h2 :: h3 :: h4 :: cs2 =>
        match hexDigitVal h1, hexDigitVal h2, hexDigitVal h3, hexDigitVal h4 with
        | some a1, some a2, some a3, some a4 =>
          let n := ((a1 * 16 + a2) * 16 + a3) * 16 + a4
          if 55296 ≤ n ∧ n ≤ 56319 then
            match cs2 with
            | b1 :: u1 :: l1 :: l2 :: l3 :: l4 :: cs3 =>
              if b1 = '\\' ∧ u1 = 'u' then
                match hexDigitVal l1, hexDigitVal l2, hexDigitVal l3, hexDigitVal l4 with
                | some d1, some d2, some d3, some d4 =>
                  let m := ((d1 * 16 + d2) * 16 + d3) * 16 + d4
                  if 56320 ≤ m ∧ m ≤ 57343 then
                    some (Char.ofNat (65536 + (n - 55296) * 1024 + (m - 56320)), cs3)
                  else none
                | _, _, _, _ => none
              else none
            | _ => none
          else if 56320 ≤ n ∧ n ≤ 57343 then none
          else some (Char.ofNat n, cs2)
        | _, _, _, _ => none
      | _ => none
    else none

/-- Body of a JSON string literal after the opening quote: the decoded
characters and the input after the closing quote.  Every step consumes at
least one input character, so any fuel above the input length is enough;
the strict decoder rejects raw control characters. -/
def parseStringBody : Nat → List Char → Option (List Char × List Char)
  | 0, _ => none
  | fuel + 1, cs =>
    match cs with
    | [] => none
    | c :: cs2 =>
      if c = '"' then some ([], cs2)
      else if c = '\\' then
        match decodeEscape cs2 with
        | none => none
        | some (d, cs3) => withChar d (parseStringBody fuel cs3)
      else if c.toNat < 32 then none
      else withChar c (parseStringBody fuel cs2)

/-- Decimal digit test, the \d of the Python NUMBER_RE. -/
def isDigitChar (c : Char) : Bool := 48 ≤ c.toNat && c.toNat ≤ 57

/-- Numeric value of a decimal digit character. -/
def digitVal (c : Char) : Nat := c.toNat - 48

/-- Value of a most-significant-first run of decimal digits. -/
def decValue (ds : List Char) : Nat :=
  ds.foldl (fun a c => 10 * a + digitVal c) 0

/-- Whether the input continues with a fraction or exponent part, which
would make the number a float — outside the modelled fragment. -/
def startsFloatChar (cs : List Char) : Bool :=
  match cs with
  | [] => false
  | c :: _ => c = '.' || c = 'e' || c = 'E'

/-- Unsigned integer literal: a maximal digit run without a redundant
leading zero (the 0|[1-9]\d* of the Python NUMBER_RE), not followed by a
fraction or exponent part. -/
def parseNatNum (cs : List Char) : Option (Nat × List Char) :=
  if (cs.takeWhile isDigitChar).isEmpty then none
  else if 2 ≤ (cs.takeWhile isDigitChar).length ∧
      (cs.takeWhile isDigitChar).headD ' ' = '0' then none
  else if startsFloatChar (cs.dropWhile isDigitChar) then none
  else some (decValue (cs.takeWhile isDigitChar), cs.dropWhile isDigitChar)

/-- Integer literal with optional minus sign. -/
def parseNumber (cs : List Char) : Option (Json × List Char) :=
  match cs with
  | [] => none
  | c :: cs2 =>
    if c = '-' then (parseNatNum cs2).map (fun p => (Json.int (-(p.1 : Int)), p.2))
    else (parseNatNum (c :: cs2)).map (fun p => (Json.int (p.1 : Int), p.2))

mutual
/-- One JSON value (json.loads grammar on the modelled fragment), returning
the value and the rest of the input.  The fuel argument bounds the
recursion depth; any fuel at least the size of the value suffices. -/
def parseValue : Nat → List Char → Option (Json × List Char)
  | 0, _ => none
  | fuel + 1, cs =>
    match skipWs cs with
    | [] => none
    | c :: rest =>
      if c = '"' then
        (parseStringBody (rest.length + 1) rest).map
          (fun p => (Json.str (String.mk p.1), p.2))
      else if c = '[' then
        match skipWs rest with
        | [] => none
        | d :: rest2 =>
          if d = ']' then some (Json.arr [], rest2)
          else (parseElems fuel (d :: rest2)).map (fun p => (Json.arr p.1, p.2))
      else if c = '{' then
        match skipWs rest with
        | [] => none
        | d :: rest2 =>
          if d = '}' then some (Json.obj [], rest2)
          else (parseMembers fuel (d :: rest2)).map (fun p => (Json.obj p.1, p.2))
      else if c = 't' then
        match rest with
        | 'r' :: 'u' :: 'e' :: rest2 => some (Json.bool true, rest2)
        | _ => none
      else if c = 'f' then
        match rest with
        | 'a' :: 'l' :: 's' :: 'e' :: rest2 => some (Json.bool false, rest2)
        | _ => none
      else if c = 'n' then
        match rest with
        | 'u' :: 'l' :: 'l' :: rest2 => some (Json.null, rest2)
        | _ => none
      else parseNumber (c :: rest)

/-- Nonempty comma-separated array items up to the closing bracket. -/
def parseElems : Nat → List Char → Option (List Json × List Char)
  | 0, _ => none
  | fuel + 1, cs =>
    match parseValue fuel cs with
    | none => none
    | some (j, r) =>
      match skipWs r with
      | [] => none
      | d :: r2 =>
        if d = ',' then
          match parseElems fuel (skipWs r2) with
          | none => none
          | some (js, r3) => some (j :: js, r3)
        else if d = ']' then some ([j], r2)
        else none

/-- Nonempty comma-separated object members up to the closing brace. -/
def parseMembers : Nat → List Char → Option (List (String × Json) × List Char)
  | 0, _ => none
  | fuel + 1, cs =>
    match cs with
    | [] => none
    | c :: rest =>
      if c = '"' then
        match parseStringBody (rest.length + 1) rest with
        | none => none
        | some (kchars, r) =>
          match skipWs r with
          | [] => none
          | d :: r2 =>
            if d = ':' then
              match parseValue fuel (skipWs r2) with
              | none => none
              | some (v, r3) =>
                match skipWs r3 with
                | [] => none
                | d2 :: r4 =>
                  if d2 = ',' then
                    match parseMembers fuel (skipWs r4) with
                    | none => none
                    | some (ms, r5) => some ((String.mk kchars, v) :: ms, r5)
                  else if d2 = '}' then some ([(String.mk kchars, v)], r4)
                  else none
            else none
      else none
end

/-- Python json.loads on the modelled fragment: one value, possibly
surrounded by whitespace, and nothing after it. -/
def Json.parse (s : String) : Option Json :=
  match parseValue (s.data.length + 1) s.data with
  | some (j, rest) => if (skipWs rest).isEmpty then some j else none
  | none => none

/-- Association-list lookup among the members of a JSON object. -/
def lookupKey (kvs : List (String × Json)) (k : String) : Option Json :=
  match kvs with
  | [] => none
  | (k2, v) :: rest => if k2 = k then some v else lookupKey rest k

/-- The error field of a textual payload: the string held under the
"error" key when the payload parses to a JSON object carrying one. -/
def errorFieldOf (payload : String) : Option String :=
  match Json.parse payload with
  | some (Json.obj kvs) =>
    match lookupKey kvs "error" with
    | some (Json.str m) => some m
    | _ => none
  | _ => none

/-- A meal-plan entry (models/mealplan.py MealPlanEntry): a required date
and three optional fields, per the spec data model and the backend create
contract create(date, recipe_id?, title?, entry_type?). -/
structure MealPlanEntry where
  date : String
  recipe_id : Option String
  title : Option String
  entry_type : Option String

/-- One call made to the backend fetcher, with the arguments passed. -/
inductive BackendCall where
  | getMealplans (start_date end_date : Option String) (page per_page : Option Int)
  | createMealplan (date : String) (recipe_id title entry_type : Option String)
  | getTodaysMealplan

/-- A behaviour of the backend fetcher: for the k-th call made within one
operation invocation (k = 0, 1, ...) and the call itself, either a normal
return of a JSON structure or a raised exception carrying its message
(Python str(e)). -/
def Backend := Nat → BackendCall → Except String Json

/-- Modelled from the spec: utils.format_error_response is not under src/
(only its caller is).  Per the spec it is the shared pure formatter
producing the uniform error envelope, a JSON object containing at minimum
an error field that holds the human-readable message; it is modelled with
exactly that single field. -/
def format_error_response (msg : String) : String :=
  Json.dumps (Json.obj [("error", Json.str msg)])

/-- The keyword arguments mealie.create_mealplan(**entry.model_dump())
passes: every field of the entry, unchanged. -/
def MealPlanEntry.call (entry : MealPlanEntry) : BackendCall :=
  .createMealplan entry.date entry.recipe_id entry.title entry.entry_type

/-- The get_all_mealplans tool operation: forwards its four optional
parameters to mealie.get_mealplans and serializes the result with
json.dumps; any exception is caught, and the operation returns
format_error_response of "Error fetching mealplans: " followed by str(e).
The result pairs the list of backend calls made with the returned text. -/
def get_all_mealplans (B : Backend) (start_date end_date : Option String)
    (page per_page : Option Int) : List BackendCall × String :=
  let c := BackendCall.getMealplans start_date end_date page per_page
  match B 0 c with
  | .ok result => ([c], Json.dumps result)
  | .error e => ([c], format_error_response ("Error fetching mealplans: " ++ e))

/-- The create_mealplan tool operation: forwards the fields of its entry
to mealie.create_mealplan and serializes the result; any exception is
caught into format_error_response of "Error creating mealplan entry: "
followed by str(e). -/
def create_mealplan (B : Backend) (entry : MealPlanEntry) :
    List BackendCall × String :=
  let c := entry.call
  match B 0 c with
  | .ok result => ([c], Json.dumps result)
  | .error e => ([c], format_error_response ("Error creating mealplan entry: " ++ e))

/-- The for-loop of create_mealplan_bulk: backend create calls in sequence
order, aborting at the first exception; returns the calls made and the
message of the exception, if one was raised. -/
def bulkLoop (B : Backend) : Nat → List MealPlanEntry → List BackendCall × Option String
  | _, [] => ([], none)
  | k, e :: rest =>
    let c := e.call
    match B k c with
    | .ok _ =>
      let r := bulkLoop B (k + 1) rest
      (c :: r.1, r.2)
    | .error msg => ([c], some msg)

/-- The create_mealplan_bulk tool operation: one backend create call per
entry in sequence order; on full success it returns the serialization of
the fixed acknowledgement object, and the first exception aborts the loop
and is caught into format_error_response of "Error creating bulk mealplan
entries: " followed by str(e). -/
def create_mealplan_bulk (B : Backend) (entries : List MealPlanEntry) :
    List BackendCall × String :=
  let r := bulkLoop B 0 entries
  match r.2 with
  | none =>
    (r.1, Json.dumps (Json.obj [("message", Json.str "Bulk mealplan entries created successfully")]))
  | some e =>
    (r.1, format_error_response ("Error creating bulk mealplan entries: " ++ e))

/-- The get_todays_mealplan tool operation: calls
mealie.get_todays_mealplan with no arguments and serializes the result;
any exception is caught into format_error_response of "Error fetching
today's mealplan: " followed by str(e). -/
def get_todays_mealplan (B : Backend) : List BackendCall × String :=
  match B 0 BackendCall.getTodaysMealplan with
  | .ok result => ([BackendCall.getTodaysMealplan], Json.dumps result)
  | .error e =>
    ([BackendCall.getTodaysMealplan],
      format_error_response ("Error fetching today's mealplan: " ++ e))



/-- Placeholder entry used only as the default of List.getD in statements
that index into an entry sequence. -/
def dummyEntry : MealPlanEntry :=
  { date := "", recipe_id := none, title := none, entry_type := none }

/-- Guard used to state the round-trip lemmas: the input after a printed
value does not begin with a character that could extend a numeric token
(a digit, or a fraction or exponent starter).  Every continuation that
occurs in printed JSON — a comma, a closing bracket or brace, or the end
of the input — satisfies it. -/
def numOk : List Char → Prop
  | [] => True
  | c :: _ => isDigitChar c = false ∧ c ≠ '.' ∧ c ≠ 'e' ∧ c ≠ 'E'

mutual
/-- Recursion-depth measure of a JSON value; parseValue succeeds on printed
input with any fuel at least this size. -/
def fsizeV : Json → Nat
  | .null => 1
  | .bool _ => 1
  | .int _ => 1
  | .str _ => 1
  | .arr xs => 1 + fsizeL xs
  | .obj kvs => 1 + fsizeM kvs

/-- Measure of an array item list. -/
def fsizeL : List Json → Nat
  | [] => 0
  | x :: xs => 1 + fsizeV x + fsizeL xs

/-- Measure of an object member list. -/
def fsizeM : List (String × Json) → Nat
  | [] => 0
  | (_, v) :: ms => 1 + fsizeV v + fsizeM ms
end

theorem toNat_ofNat_valid {n : Nat} (h : n.isValidChar) : (Char.ofNat n).toNat = n := by
  simp only [Char.ofNat, h, dif_pos]
  rfl

theorem char_ne_of_toNat_ne {c x : Char} (h : c.toNat ≠ x.toNat) : c ≠ x :=
  fun he => h (congrArg Char.toNat he)

theorem char_toNat_range (c : Char) :
    c.toNat < 55296 ∨ (57343 < c.toNat ∧ c.toNat < 1114112) := c.valid

theorem toNat_hexDigitChar {d : Nat} (h : d < 16) :
    (hexDigitChar d).toNat = if d < 10 then 48 + d else 87 + d := by
  unfold hexDigitChar
  split
  · exact toNat_ofNat_valid (Or.inl (by omega))
  · exact toNat_ofNat_valid (Or.inl (by omega))

theorem hexDigitVal_hexDigitChar {d : Nat} (h : d < 16) :
    hexDigitVal (hexDigitChar d) = some d := by
  have ht := toNat_hexDigitChar h
  by_cases hd : d < 10
  · rw [if_pos hd] at ht
    simp only [hexDigitVal, ht]
    have h1 : (48 ≤ 48 + d && 48 + d ≤ 57) = true := by
      simp only [Bool.and_eq_true, decide_eq_true_eq]; omega
    rw [h1]
    simp
  · rw [if_neg hd] at ht
    simp only [hexDigitVal, ht]
    have h1 : (48 ≤ 87 + d && 87 + d ≤ 57) = false := by
      simp only [Bool.and_eq_false_iff, decide_eq_false_iff_not]; omega
    have h2 : (97 ≤ 87 + d && 87 + d ≤ 102) = true := by
      simp only [Bool.and_eq_true, decide_eq_true_eq]; omega
    rw [h1, h2]
    simp

theorem mod16_lt (n : Nat) : n % 16 < 16 := Nat.mod_lt _ (by norm_num)

theorem hex4_parse (n : Nat) :
    ∃ c1 c2 c3 c4, hex4 n = [c1, c2, c3, c4] ∧
      hexDigitVal c1 = some (n / 4096 % 16) ∧ hexDigitVal c2 = some (n / 256 % 16) ∧
      hexDigitVal c3 = some (n / 16 % 16) ∧ hexDigitVal c4 = some (n % 16) := by
  refine ⟨_, _, _, _, rfl, ?_, ?_, ?_, ?_⟩ <;>
    exact hexDigitVal_hexDigitChar (mod16_lt _)

theorem decodeEscape_u_bmp {n : Nat} (hn : n < 65536)
    (hub : ¬ (55296 ≤ n ∧ n ≤ 57343)) (cs : List Char) :
    decodeEscape ('u' :: (hex4 n ++ cs)) = some (Char.ofNat n, cs) := by
  obtain ⟨c1, c2, c3, c4, he, v1, v2, v3, v4⟩ := hex4_parse n
  rw [he]
  have hrec : ((n / 4096 % 16 * 16 + n / 256 % 16) * 16 + n / 16 % 16) * 16 + n % 16 = n := by
    omega
  simp only [List.cons_append, List.nil_append, decodeEscape]
  simp only [v1, v2, v3, v4, hrec]
  have hs1 : ¬ (55296 ≤ n ∧ n ≤ 56319) := by omega
  have hs2 : ¬ (56320 ≤ n ∧ n ≤ 57343) := by omega
  simp [hs1, hs2]

theorem decodeEscape_u_pair {hi lo : Nat}
    (hhi1 : 55296 ≤ hi) (hhi2 : hi ≤ 56319)
    (hlo1 : 56320 ≤ lo) (hlo2 : lo ≤ 57343) (cs : List Char) :
    decodeEscape ('u' :: (hex4 hi ++ '\\' :: 'u' :: (hex4 lo ++ cs))) =
      some (Char.ofNat (65536 + (hi - 55296) * 1024 + (lo - 56320)), cs) := by
  obtain ⟨c1, c2, c3, c4, he, v1, v2, v3, v4⟩ := hex4_parse hi
  obtain ⟨d1, d2, d3, d4, hf, w1, w2, w3, w4⟩ := hex4_parse lo
  rw [he, hf]
  have hrec1 : ((hi / 4096 % 16 * 16 + hi / 256 % 16) * 16 + hi / 16 % 16) * 16 + hi % 16 = hi := by
    omega
  have hrec2 : ((lo / 4096 % 16 * 16 + lo / 256 % 16) * 16 + lo / 16 % 16) * 16 + lo % 16 = lo := by
    omega
  have hs1 : 55296 ≤ hi ∧ hi ≤ 56319 := ⟨hhi1, hhi2⟩
  have hs2 : 56320 ≤ lo ∧ lo ≤ 57343 := ⟨hlo1, hlo2⟩
  simp only [List.cons_append, List.nil_append, List.append_assoc]
  simp only [decodeEscape]
  simp only [v1, v2, v3, v4, hrec1]
  rw [if_pos hs1]
  simp only [w1, w2, w3, w4, hrec2]
  simp [hs2]

theorem stringStep_pair (c : Char) (f : Nat) (T : List Char) {hi lo : Nat}
    (hhi1 : 55296 ≤ hi) (hhi2 : hi ≤ 56319)
    (hlo1 : 56320 ≤ lo) (hlo2 : lo ≤ 57343)
    (hc : c.toNat = 65536 + (hi - 55296) * 1024 + (lo - 56320)) :
    parseStringBody (f + 1)
      (('\\' :: 'u' :: hex4 hi ++ ('\\' :: 'u' :: hex4 lo)) ++ T) =
      withChar c (parseStringBody f T) := by
  simp only [List.cons_append, List.append_assoc, parseStringBody]
  have hne : ('\\' : Char) ≠ '"' := by decide
  rw [if_neg hne]
  simp only [if_true]
  rw [decodeEscape_u_pair hhi1 hhi2 hlo1 hlo2, ← hc, Char.ofNat_toNat]

theorem stringStep_bmp (c : Char) (f : Nat) (T : List Char) {n : Nat}
    (hn : n < 65536) (hub : ¬ (55296 ≤ n ∧ n ≤ 57343)) (hc : c.toNat = n) :
    parseStringBody (f + 1) (('\\' :: 'u' :: hex4 n) ++ T) =
      withChar c (parseStringBody f T) := by
  simp only [List.cons_append, List.append_assoc, parseStringBody]
  have hne : ('\\' : Char) ≠ '"' := by decide
  rw [if_neg hne]
  simp only [if_true]
  rw [decodeEscape_u_bmp hn hub, ← hc, Char.ofNat_toNat]


theorem parseStringBody_encodeChar (c : Char) (f : Nat) (T : List Char) :
    parseStringBody (f + 1) (encodeChar c ++ T) = withChar c (parseStringBody f T) := by
  by_cases h1 : c = '"'
  · subst h1
    rw [encodeChar, if_pos rfl]
    simp [parseStringBody, decodeEscape, withChar]
  rw [encodeChar, if_neg h1]
  by_cases h2 : c = '\\'
  · subst h2
    rw [if_pos rfl]
    simp [parseStringBody, decodeEscape, withChar]
  rw [if_neg h2]
  by_cases h3 : c = '\x08'
  · subst h3
    rw [if_pos rfl]
    simp [parseStringBody, decodeEscape, withChar]
  rw [if_neg h3]
  by_cases h4 : c = '\t'
  · subst h4
    rw [if_pos rfl]
    simp [parseStringBody, decodeEscape, withChar]
  rw [if_neg h4]
  by_cases h5 : c = '\n'
  · subst h5
    rw [if_pos rfl]
    simp [parseStringBody, decodeEscape, withChar]
  rw [if_neg h5]
  by_cases h6 : c = '\x0c'
  · subst h6
    rw [if_pos rfl]
    simp [parseStringBody, decodeEscape, withChar]
  rw [if_neg h6]
  by_cases h7 : c = '\r'
  · subst h7
    rw [if_pos rfl]
    simp [parseStringBody, decodeEscape, withChar]
  rw [if_neg h7]
  by_cases h8 : (32 ≤ c.toNat && c.toNat ≤ 126) = true
  · rw [if_pos h8]
    simp only [Bool.and_eq_true, decide_eq_true_eq] at h8
    have hn32 : ¬ c.toNat < 32 := by omega
    simp [parseStringBody, h1, h2, hn32, withChar]
  rw [if_neg h8]
  simp only [Bool.and_eq_true, decide_eq_true_eq, not_and, not_le] at h8
  have hrange := char_toNat_range c
  by_cases h9 : c.toNat < 65536
  · rw [if_pos h9]
    have hub : ¬ (55296 ≤ c.toNat ∧ c.toNat ≤ 57343) := by
      rcases hrange with hr | hr
      · omega
      · omega
    exact stringStep_bmp c f T h9 hub rfl
  · rw [if_neg h9]
    push_neg at h9
    have hlt : c.toNat < 1114112 := by
      rcases hrange with hr | hr
      · omega
      · omega
    have hm : (c.toNat - 65536) % 1024 < 1024 := Nat.mod_lt _ (by norm_num)
    have hdv : (c.toNat - 65536) / 1024 ≤ 1023 := by
      have hb : c.toNat - 65536 < 1048576 := by omega
      omega
    exact stringStep_pair c f T (by omega) (by omega) (by omega) (by omega) (by omega)

theorem parseStringBody_encodeChars :
    ∀ (cs : List Char) (fuel : Nat) (rest : List Char), cs.length < fuel →
      parseStringBody fuel (encodeChars cs ++ '"' :: rest) = some (cs, rest) := by
  intro cs
  induction cs with
  | nil =>
    intro fuel rest h
    obtain ⟨f, rfl⟩ : ∃ f, fuel = f + 1 := ⟨fuel - 1, by omega⟩
    rfl
  | cons c cs ih =>
    intro fuel rest h
    obtain ⟨f, rfl⟩ : ∃ f, fuel = f + 1 := ⟨fuel - 1, by omega⟩
    have hf : cs.length < f := by simpa using h
    rw [encodeChars, List.append_assoc, parseStringBody_encodeChar, ih f rest hf]
    rfl


theorem digitsRevAux_zero (fuel : Nat) : digitsRevAux fuel 0 = [] := by
  cases fuel with
  | zero => rfl
  | succ f => simp [digitsRevAux]

theorem digitsRevAux_lt : ∀ fuel n d, d ∈ digitsRevAux fuel n → d < 10 := by
  intro fuel
  induction fuel with
  | zero => intro n d h; simp [digitsRevAux] at h
  | succ f ih =>
    intro n d h
    by_cases hn : n = 0
    · subst hn; simp [digitsRevAux] at h
    · rw [digitsRevAux, if_neg hn] at h
      rcases List.mem_cons.mp h with h | h
      · subst h; exact Nat.mod_lt _ (by norm_num)
      · exact ih _ _ h

theorem digitsRevAux_val : ∀ fuel n acc, n < 10 ^ fuel →
    ((digitsRevAux fuel n).reverse).foldl (fun a d => 10 * a + d) acc =
      acc * 10 ^ (digitsRevAux fuel n).length + n := by
  intro fuel
  induction fuel with
  | zero =>
    intro n acc h
    have hn : n = 0 := by simpa using h
    subst hn
    simp [digitsRevAux]
  | succ f ih =>
    intro n acc h
    by_cases hn : n = 0
    · subst hn; simp [digitsRevAux_zero]
    · rw [digitsRevAux, if_neg hn]
      have hdiv : n / 10 < 10 ^ f := by
        apply Nat.div_lt_of_lt_mul
        rw [pow_succ] at h
        omega
      rw [List.reverse_cons, List.foldl_append, ih (n / 10) acc hdiv]
      simp only [List.foldl_cons, List.foldl_nil, List.length_cons]
      set p := 10 ^ (digitsRevAux f (n / 10)).length with hp
      have hmod : 10 * (n / 10) + n % 10 = n := Nat.div_add_mod n 10
      have hr : 10 * (acc * p + n / 10) + n % 10 =
          acc * (p * 10) + (10 * (n / 10) + n % 10) := by ring
      rw [pow_succ, hr, hmod]

theorem digitsRevAux_msd : ∀ fuel n, 0 < n → n < 10 ^ fuel →
    ∃ d ds, (digitsRevAux fuel n).reverse = d :: ds ∧ d ≠ 0 ∧ d < 10 := by
  intro fuel
  induction fuel with
  | zero => intro n h1 h2; simp at h2; omega
  | succ f ih =>
    intro n h1 h2
    rw [digitsRevAux, if_neg (by omega)]
    by_cases hz : n / 10 = 0
    · have hn10 : n < 10 := by omega
      rw [hz, digitsRevAux_zero]
      exact ⟨n % 10, [], by simp, by omega, Nat.mod_lt _ (by norm_num)⟩
    · have hdiv : n / 10 < 10 ^ f := by
        apply Nat.div_lt_of_lt_mul
        rw [pow_succ] at h2
        omega
      obtain ⟨d, ds, hds, hd0, hd10⟩ := ih (n / 10) (by omega) hdiv
      rw [List.reverse_cons, hds]
      exact ⟨d, ds ++ [n % 10], by simp, hd0, hd10⟩

theorem natChars_digits (n : Nat) : ∀ c ∈ natChars n, isDigitChar c = true := by
  intro c hc
  by_cases hn : n = 0
  · subst hn
    simp only [natChars, if_pos rfl] at hc
    simp at hc
    subst hc
    decide
  · rw [natChars, if_neg hn] at hc
    obtain ⟨d, hd, rfl⟩ := List.mem_map.mp hc
    have hd10 : d < 10 := digitsRevAux_lt n n d (List.mem_reverse.mp hd)
    have ht : (Char.ofNat (48 + d)).toNat = 48 + d :=
      toNat_ofNat_valid (Or.inl (by omega))
    simp only [isDigitChar, ht, Bool.and_eq_true, decide_eq_true_eq]
    omega

theorem natChars_ne_nil (n : Nat) : ∃ c cs, natChars n = c :: cs := by
  by_cases hn : n = 0
  · subst hn; exact ⟨'0', [], rfl⟩
  · rw [natChars, if_neg hn]
    obtain ⟨d, ds, hds, -, -⟩ :=
      digitsRevAux_msd n n (by omega) (Nat.lt_pow_self (by norm_num) n)
    rw [hds]
    exact ⟨_, _, rfl⟩

theorem foldl_digitVal_congr : ∀ (xs : List Nat) (acc : Nat), (∀ d ∈ xs, d < 10) →
    xs.foldl (fun a d => 10 * a + digitVal (Char.ofNat (48 + d))) acc =
      xs.foldl (fun a d => 10 * a + d) acc := by
  intro xs
  induction xs with
  | nil => intro acc _; rfl
  | cons x xs ih =>
    intro acc h
    have hx : x < 10 := h x (by simp)
    have hv : digitVal (Char.ofNat (48 + x)) = x := by
      unfold digitVal
      rw [toNat_ofNat_valid (Or.inl (by omega))]
      omega
    simp only [List.foldl_cons, hv]
    exact ih _ (fun d hd => h d (by simp [hd]))

theorem decValue_natChars (n : Nat) : decValue (natChars n) = n := by
  by_cases hn : n = 0
  · subst hn; rfl
  · rw [natChars, if_neg hn]
    unfold decValue
    rw [List.foldl_map]
    have hall : ∀ d ∈ (digitsRevAux n n).reverse, d < 10 :=
      fun d hd => digitsRevAux_lt n n d (List.mem_reverse.mp hd)
    rw [foldl_digitVal_congr _ 0 hall]
    rw [digitsRevAux_val n n 0 (Nat.lt_pow_self (by norm_num) n)]
    simp

theorem natChars_no_leading_zero (n : Nat) :
    2 ≤ (natChars n).length → (natChars n).headD ' ' ≠ '0' := by
  intro hl
  by_cases hn : n = 0
  · subst hn; simp [natChars] at hl
  · rw [natChars, if_neg hn]
    obtain ⟨d, ds, hds, hd0, hd10⟩ :=
      digitsRevAux_msd n n (by omega) (Nat.lt_pow_self (by norm_num) n)
    rw [hds]
    simp only [List.map_cons, List.headD_cons]
    apply char_ne_of_toNat_ne
    rw [toNat_ofNat_valid (Or.inl (by omega))]
    have h0 : ('0' : Char).toNat = 48 := rfl
    omega

theorem takeWhile_digits : ∀ (ds rest : List Char),
    (∀ c ∈ ds, isDigitChar c = true) → numOk rest →
    (ds ++ rest).takeWhile isDigitChar = ds ∧
      (ds ++ rest).dropWhile isDigitChar = rest := by
  intro ds
  induction ds with
  | nil =>
    intro rest _ hrest
    cases rest with
    | nil => exact ⟨rfl, rfl⟩
    | cons c cs =>
      have hc : isDigitChar c = false ∧ c ≠ '.' ∧ c ≠ 'e' ∧ c ≠ 'E' := hrest
      constructor
      · rw [List.nil_append, List.takeWhile_cons]
        simp [hc.1]
      · rw [List.nil_append, List.dropWhile_cons]
        simp [hc.1]
  | cons c ds ih =>
    intro rest h hrest
    have hc : isDigitChar c = true := h c (by simp)
    obtain ⟨h1, h2⟩ := ih rest (fun x hx => h x (by simp [hx])) hrest
    constructor
    · rw [List.cons_append, List.takeWhile_cons, if_pos hc, h1]
    · rw [List.cons_append, List.dropWhile_cons, if_pos hc, h2]

theorem startsFloat_false {rest : List Char} (h : numOk rest) :
    startsFloatChar rest = false := by
  cases rest with
  | nil => rfl
  | cons c cs =>
    have hc : isDigitChar c = false ∧ c ≠ '.' ∧ c ≠ 'e' ∧ c ≠ 'E' := h
    simp [startsFloatChar, hc.2.1, hc.2.2.1, hc.2.2.2]

theorem parseNatNum_natChars (n : Nat) (rest : List Char) (h : numOk rest) :
    parseNatNum (natChars n ++ rest) = some (n, rest) := by
  obtain ⟨htw, hdw⟩ := takeWhile_digits (natChars n) rest (natChars_digits n) h
  rw [parseNatNum, htw, hdw]
  obtain ⟨c, cs, hcc⟩ := natChars_ne_nil n
  have hne : (natChars n).isEmpty = false := by rw [hcc]; rfl
  rw [hne]
  have hlz : ¬ (2 ≤ (natChars n).length ∧ (natChars n).headD ' ' = '0') := by
    rintro ⟨ha, hb⟩
    exact natChars_no_leading_zero n ha hb
  rw [if_neg hlz, startsFloat_false h]
  simp [decValue_natChars]

theorem parseNumber_intChars (n : Int) (rest : List Char) (h : numOk rest) :
    parseNumber (intChars n ++ rest) = some (Json.int n, rest) := by
  by_cases hneg : n < 0
  · rw [intChars, if_pos hneg, List.cons_append, parseNumber]
    rw [if_pos rfl, parseNatNum_natChars _ _ h]
    have ha : -((n.natAbs : Nat) : Int) = n := by omega
    show some (Json.int (-((n.natAbs : Nat) : Int)), rest) = some (Json.int n, rest)
    rw [ha]
  · rw [intChars, if_neg hneg]
    obtain ⟨c, cs, hcc⟩ := natChars_ne_nil n.natAbs
    have hcd : isDigitChar c = true := natChars_digits _ c (by rw [hcc]; simp)
    have hct : 48 ≤ c.toNat ∧ c.toNat ≤ 57 := by
      simpa [isDigitChar, Bool.and_eq_true, decide_eq_true_eq] using hcd
    have hcne : c ≠ '-' := char_ne_of_toNat_ne (by
      have hm : ('-' : Char).toNat = 45 := rfl
      omega)
    rw [hcc, List.cons_append, parseNumber, if_neg hcne, ← List.cons_append, ← hcc,
      parseNatNum_natChars _ _ h]
    have ha : ((n.natAbs : Nat) : Int) = n := by omega
    show some (Json.int ((n.natAbs : Nat) : Int), rest) = some (Json.int n, rest)
    rw [ha]


theorem skipWs_not_ws (c : Char) (cs : List Char) (h : isWsChar c = false) :
    skipWs (c :: cs) = c :: cs := by
  simp [skipWs, List.dropWhile_cons, h]

theorem numOk_of_head (c : Char) (r : List Char) (h1 : isDigitChar c = false)
    (h2 : c ≠ '.') (h3 : c ≠ 'e') (h4 : c ≠ 'E') : numOk (c :: r) :=
  ⟨h1, h2, h3, h4⟩

theorem numStart_facts (c : Char) (h : isDigitChar c = true ∨ c = '-') :
    isWsChar c = false ∧ c ≠ '"' ∧ c ≠ '[' ∧ c ≠ '{' ∧
      c ≠ 't' ∧ c ≠ 'f' ∧ c ≠ 'n' := by
  rcases h with h | h
  · have hb : 48 ≤ c.toNat ∧ c.toNat ≤ 57 := by
      simpa [isDigitChar, Bool.and_eq_true, decide_eq_true_eq] using h
    refine ⟨?_, ?_, ?_, ?_, ?_, ?_, ?_⟩
    · by_contra hw
      rw [Bool.not_eq_false] at hw
      simp only [isWsChar, Bool.or_eq_true, decide_eq_true_eq] at hw
      rcases hw with ((h | h) | h) | h <;> subst h <;> exact absurd hb (by decide)
    · exact char_ne_of_toNat_ne (by have h34 : ('"' : Char).toNat = 34 := rfl; omega)
    · exact char_ne_of_toNat_ne (by have h91 : ('[' : Char).toNat = 91 := rfl; omega)
    · exact char_ne_of_toNat_ne (by have h123 : ('{' : Char).toNat = 123 := rfl; omega)
    · exact char_ne_of_toNat_ne (by have h116 : ('t' : Char).toNat = 116 := rfl; omega)
    · exact char_ne_of_toNat_ne (by have h102 : ('f' : Char).toNat = 102 := rfl; omega)
    · exact char_ne_of_toNat_ne (by have h110 : ('n' : Char).toNat = 110 := rfl; omega)
  · subst h
    refine ⟨rfl, ?_, ?_, ?_, ?_, ?_, ?_⟩ <;> decide

theorem parseValue_numStart (f : Nat) (c : Char) (cs : List Char)
    (h : isDigitChar c = true ∨ c = '-') :
    parseValue (f + 1) (c :: cs) = parseNumber (c :: cs) := by
  obtain ⟨hws, h1, h2, h3, h4, h5, h6⟩ := numStart_facts c h
  simp only [parseValue, skipWs_not_ws c cs hws]
  rw [if_neg h1, if_neg h2, if_neg h3, if_neg h4, if_neg h5, if_neg h6]

theorem intChars_head (n : Int) :
    ∃ c cs, intChars n = c :: cs ∧ (isDigitChar c = true ∨ c = '-') := by
  by_cases hneg : n < 0
  · rw [intChars, if_pos hneg]
    exact ⟨'-', _, rfl, Or.inr rfl⟩
  · rw [intChars, if_neg hneg]
    obtain ⟨c, cs, hcc⟩ := natChars_ne_nil n.natAbs
    exact ⟨c, cs, hcc, Or.inl (natChars_digits _ c (by rw [hcc]; simp))⟩

theorem encodeChars_length_ge : ∀ cs : List Char, cs.length ≤ (encodeChars cs).length := by
  intro cs
  induction cs with
  | nil => simp [encodeChars]
  | cons c cs ih =>
    rw [encodeChars, List.length_append]
    have h1 : 1 ≤ (encodeChar c).length := by
      unfold encodeChar
      split
      · simp
      split
      · simp
      split
      · simp
      split
      · simp
      split
      · simp
      split
      · simp
      split
      · simp
      split
      · simp
      split
      · simp [hex4]
      · simp [hex4]
    simp only [List.length_cons]
    omega

theorem printVal_head (j : Json) :
    ∃ c cs, printVal j = c :: cs ∧ isWsChar c = false ∧ c ≠ ']' := by
  cases j with
  | null => exact ⟨'n', _, rfl, by decide, by decide⟩
  | bool b =>
    cases b
    · exact ⟨'f', _, rfl, by decide, by decide⟩
    · exact ⟨'t', _, rfl, by decide, by decide⟩
  | int n =>
    obtain ⟨c, cs, hcc, hcd⟩ := intChars_head n
    obtain ⟨hws, -, -, -, -, -, -⟩ := numStart_facts c hcd
    refine ⟨c, cs, hcc, hws, ?_⟩
    rcases hcd with hd | hd
    · have hb : 48 ≤ c.toNat ∧ c.toNat ≤ 57 := by
        simpa [isDigitChar, Bool.and_eq_true, decide_eq_true_eq] using hd
      exact char_ne_of_toNat_ne (by have : (']' : Char).toNat = 93 := rfl; omega)
    · subst hd; decide
  | str s => exact ⟨'"', _, rfl, by decide, by decide⟩
  | arr xs => exact ⟨'[', _, rfl, by decide, by decide⟩
  | obj kvs => exact ⟨'{', _, rfl, by decide, by decide⟩

theorem printElems_head (x : Json) (xs : List Json) :
    ∃ c cs, printElems (x :: xs) = c :: cs ∧ isWsChar c = false ∧ c ≠ ']' := by
  obtain ⟨c, cs, hcc, hws, hne⟩ := printVal_head x
  cases xs with
  | nil => exact ⟨c, cs, by rw [printElems, hcc], hws, hne⟩
  | cons y ys =>
    refine ⟨c, cs ++ ',' :: ' ' :: printElems (y :: ys), ?_, hws, hne⟩
    rw [printElems, hcc, List.cons_append]

theorem fsizeV_pos (j : Json) : 1 ≤ fsizeV j := by
  cases j <;> simp [fsizeV]

theorem fsizeL_pos (xs : List Json) (h : xs ≠ []) : 1 ≤ fsizeL xs := by
  cases xs with
  | nil => exact absurd rfl h
  | cons x xs =>
    simp only [fsizeL]
    omega

theorem fsizeM_pos (kvs : List (String × Json)) (h : kvs ≠ []) : 1 ≤ fsizeM kvs := by
  cases kvs with
  | nil => exact absurd rfl h
  | cons m ms =>
    obtain ⟨k, v⟩ := m
    simp only [fsizeM]
    omega

theorem string_mk_data (s : String) : String.mk s.data = s := rfl


theorem skipWs_ws_cons (c : Char) (cs : List Char) (h : isWsChar c = true) :
    skipWs (c :: cs) = skipWs cs := by
  simp [skipWs, List.dropWhile_cons, h]

theorem parseValue_quote (f : Nat) (cs : List Char) :
    parseValue (f + 1) ('"' :: cs) =
      (parseStringBody (cs.length + 1) cs).map
        (fun p => (Json.str (String.mk p.1), p.2)) := rfl

theorem parseValue_arr_nil (f : Nat) (rest : List Char) :
    parseValue (f + 1) ('[' :: ']' :: rest) = some (Json.arr [], rest) := rfl

theorem parseValue_obj_nil (f : Nat) (rest : List Char) :
    parseValue (f + 1) ('{' :: '}' :: rest) = some (Json.obj [], rest) := rfl

theorem parseValue_obj_cons (f : Nat) (cs2 : List Char) :
    parseValue (f + 1) ('{' :: '"' :: cs2) =
      (parseMembers f ('"' :: cs2)).map (fun p => (Json.obj p.1, p.2)) := rfl

theorem parseValue_arr_cons (f : Nat) (c : Char) (cs2 : List Char)
    (hws : isWsChar c = false) (hne : c ≠ ']') :
    parseValue (f + 1) ('[' :: c :: cs2) =
      (parseElems f (c :: cs2)).map (fun p => (Json.arr p.1, p.2)) := by
  simp only [parseValue, skipWs_not_ws '[' (c :: cs2) (by decide),
    skipWs_not_ws c cs2 hws]
  simp [hne]


theorem numOk_comma (r : List Char) : numOk (',' :: r) :=
  numOk_of_head ',' r (by decide) (by decide) (by decide) (by decide)

theorem numOk_rbracket (r : List Char) : numOk (']' :: r) :=
  numOk_of_head ']' r (by decide) (by decide) (by decide) (by decide)

theorem numOk_rbrace (r : List Char) : numOk ('}' :: r) :=
  numOk_of_head '}' r (by decide) (by decide) (by decide) (by decide)

theorem parse_print : ∀ fuel : Nat,
    (∀ (j : Json) (rest : List Char), fsizeV j ≤ fuel → numOk rest →
      parseValue fuel (printVal j ++ rest) = some (j, rest)) ∧
    (∀ (xs : List Json) (rest : List Char), xs ≠ [] → fsizeL xs ≤ fuel → numOk rest →
      parseElems fuel (printElems xs ++ ']' :: rest) = some (xs, rest)) ∧
    (∀ (kvs : List (String × Json)) (rest : List Char), kvs ≠ [] → fsizeM kvs ≤ fuel →
      numOk rest → parseMembers fuel (printMembers kvs ++ '}' :: rest) = some (kvs, rest)) := by
  intro fuel
  induction fuel with
  | zero =>
    refine ⟨?_, ?_, ?_⟩
    · intro j rest hsz _
      exact absurd hsz (by have := fsizeV_pos j; omega)
    · intro xs rest hne hsz _
      exact absurd hsz (by have := fsizeL_pos xs hne; omega)
    · intro kvs rest hne hsz _
      exact absurd hsz (by have := fsizeM_pos kvs hne; omega)
  | succ f ih =>
    obtain ⟨ihV, ihE, ihM⟩ := ih
    refine ⟨?_, ?_, ?_⟩
    · intro j rest hsz hnum
      cases j with
      | null =>
        simp only [printVal, List.cons_append, List.nil_append]
        rfl
      | bool b =>
        cases b <;>
          (simp only [printVal, List.cons_append, List.nil_append]; rfl)
      | int n =>
        obtain ⟨c, cs, hcc, hcd⟩ := intChars_head n
        show parseValue (f + 1) (intChars n ++ rest) = some (Json.int n, rest)
        rw [hcc, List.cons_append, parseValue_numStart f c _ hcd, ← List.cons_append,
          ← hcc, parseNumber_intChars n rest hnum]
      | str s =>
        simp only [printVal, List.cons_append, List.append_assoc, List.singleton_append,
          List.nil_append]
        rw [parseValue_quote]
        have hlen : s.data.length < (encodeChars s.data ++ '"' :: rest).length + 1 := by
          have hel := encodeChars_length_ge s.data
          simp only [List.length_append, List.length_cons]
          omega
        rw [parseStringBody_encodeChars s.data _ rest hlen]
        simp [string_mk_data]
      | arr xs =>
        cases xs with
        | nil =>
          simp only [printVal, printElems, List.nil_append, List.cons_append,
            List.singleton_append]
          exact parseValue_arr_nil f rest
        | cons x xs2 =>
          simp only [printVal, List.cons_append, List.append_assoc, List.singleton_append,
            List.nil_append]
          obtain ⟨c, cs, hcc, hws, hnec⟩ := printElems_head x xs2
          rw [hcc, List.cons_append, parseValue_arr_cons f c _ hws hnec,
            ← List.cons_append, ← hcc]
          have hsz2 : fsizeL (x :: xs2) ≤ f := by
            simp only [fsizeV, fsizeL] at hsz ⊢
            omega
          rw [ihE (x :: xs2) rest (by simp) hsz2 hnum]
          rfl
      | obj kvs =>
        cases kvs with
        | nil =>
          simp only [printVal, printMembers, List.nil_append, List.cons_append,
            List.singleton_append]
          exact parseValue_obj_nil f rest
        | cons m ms =>
          obtain ⟨k, v⟩ := m
          have hhead : ∃ tl, printMembers ((k, v) :: ms) = '"' :: tl := by
            cases ms with
            | nil => exact ⟨_, rfl⟩
            | cons m2 ms2 => exact ⟨_, rfl⟩
          obtain ⟨tl, htl⟩ := hhead
          simp only [printVal, List.cons_append, List.append_assoc, List.singleton_append,
            List.nil_append]
          rw [htl, List.cons_append, parseValue_obj_cons, ← List.cons_append, ← htl]
          have hsz2 : fsizeM ((k, v) :: ms) ≤ f := by
            simp only [fsizeV, fsizeM] at hsz ⊢
            omega
          rw [ihM ((k, v) :: ms) rest (by simp) hsz2 hnum]
          rfl
    · intro xs rest hne hsz hnum
      cases xs with
      | nil => exact absurd rfl hne
      | cons x xs2 =>
        cases xs2 with
        | nil =>
          simp only [printElems]
          simp only [parseElems]
          have hszx : fsizeV x ≤ f := by
            simp only [fsizeL] at hsz
            omega
          rw [ihV x (']' :: rest) hszx (numOk_rbracket rest)]
          simp [skipWs_not_ws ']' rest (by decide)]
        | cons y ys =>
          simp only [printElems, List.cons_append, List.append_assoc]
          simp only [parseElems]
          have hszx : fsizeV x ≤ f := by
            simp only [fsizeL] at hsz
            omega
          have hszE : fsizeL (y :: ys) ≤ f := by
            simp only [fsizeL] at hsz ⊢
            omega
          rw [ihV x (',' :: ' ' :: (printElems (y :: ys) ++ ']' :: rest)) hszx
            (numOk_comma _)]
          obtain ⟨c, cs, hcc, hws, hnec⟩ := printElems_head y ys
          have hskip : skipWs (' ' :: (printElems (y :: ys) ++ ']' :: rest)) =
              printElems (y :: ys) ++ ']' :: rest := by
            rw [skipWs_ws_cons ' ' _ (by decide), hcc, List.cons_append,
              skipWs_not_ws c _ hws]
          simp [skipWs_not_ws ',' _ (by decide), hskip,
            ihE (y :: ys) rest (by simp) hszE hnum]
    · intro kvs rest hne hsz hnum
      cases kvs with
      | nil => exact absurd rfl hne
      | cons m ms =>
        obtain ⟨k, v⟩ := m
        cases ms with
        | nil =>
          simp only [printMembers, List.cons_append, List.append_assoc]
          simp only [parseMembers]
          simp only [if_true]
          have hlen : k.data.length <
              (encodeChars k.data ++ '"' :: ':' :: ' ' :: (printVal v ++ '}' :: rest)).length + 1 := by
            have hel := encodeChars_length_ge k.data
            simp only [List.length_append, List.length_cons]
            omega
          rw [parseStringBody_encodeChars k.data _ _ hlen]
          have hszv : fsizeV v ≤ f := by
            simp only [fsizeM] at hsz
            omega
          have hskip : skipWs (' ' :: (printVal v ++ '}' :: rest)) =
              printVal v ++ '}' :: rest := by
            obtain ⟨c, cs, hcc, hws, -⟩ := printVal_head v
            rw [skipWs_ws_cons ' ' _ (by decide), hcc, List.cons_append,
              skipWs_not_ws c _ hws]
          simp [skipWs_not_ws ':' _ (by decide), hskip,
            ihV v ('}' :: rest) hszv (numOk_rbrace rest),
            skipWs_not_ws '}' rest (by decide), string_mk_data]
        | cons m2 ms2 =>
          simp only [printMembers, List.cons_append, List.append_assoc]
          simp only [parseMembers]
          simp only [if_true]
          have hlen : k.data.length <
              (encodeChars k.data ++ '"' :: ':' :: ' ' ::
                (printVal v ++ ',' :: ' ' :: (printMembers (m2 :: ms2) ++ '}' :: rest))).length + 1 := by
            have hel := encodeChars_length_ge k.data
            simp only [List.length_append, List.length_cons]
            omega
          rw [parseStringBody_encodeChars k.data _ _ hlen]
          have hszv : fsizeV v ≤ f := by
            simp only [fsizeM] at hsz
            omega
          have hszM : fsizeM (m2 :: ms2) ≤ f := by
            simp only [fsizeM] at hsz ⊢
            omega
          have hskip : skipWs (' ' :: (printVal v ++ ',' :: ' ' ::
              (printMembers (m2 :: ms2) ++ '}' :: rest))) =
              printVal v ++ ',' :: ' ' :: (printMembers (m2 :: ms2) ++ '}' :: rest) := by
            obtain ⟨c, cs, hcc, hws, -⟩ := printVal_head v
            rw [skipWs_ws_cons ' ' _ (by decide), hcc, List.cons_append,
              skipWs_not_ws c _ hws]
          have hhead : ∃ tl, printMembers ((m2.1, m2.2) :: ms2) = '"' :: tl := by
            cases ms2 with
            | nil => exact ⟨_, rfl⟩
            | cons m3 ms3 => exact ⟨_, rfl⟩
          obtain ⟨tl, htl⟩ := hhead
          have hskip2 : skipWs (' ' :: (printMembers (m2 :: ms2) ++ '}' :: rest)) =
              printMembers (m2 :: ms2) ++ '}' :: rest := by
            rw [skipWs_ws_cons ' ' _ (by decide)]
            have hm : printMembers (m2 :: ms2) = '"' :: tl := by
              cases m2 with
              | mk k2 v2 => exact htl
            rw [hm, List.cons_append, skipWs_not_ws '"' _ (by decide)]
          simp [skipWs_not_ws ':' _ (by decide), hskip,
            ihV v (',' :: ' ' :: (printMembers (m2 :: ms2) ++ '}' :: rest)) hszv
              (numOk_comma _),
            skipWs_not_ws ',' _ (by decide), hskip2,
            ihM (m2 :: ms2) rest (by simp) hszM hnum, string_mk_data]


mutual
theorem fsizeV_le_print : ∀ j : Json, fsizeV j ≤ (printVal j).length
  | .null => by simp [fsizeV, printVal]
  | .bool true => by simp [fsizeV, printVal]
  | .bool false => by simp [fsizeV, printVal]
  | .int n => by
    obtain ⟨c, cs, hcc, -⟩ := intChars_head n
    simp [fsizeV, printVal, hcc]
  | .str s => by simp [fsizeV, printVal]
  | .arr xs => by
    have h := fsizeL_le_print xs
    simp only [fsizeV, printVal, List.length_cons, List.length_append]
    omega
  | .obj kvs => by
    have h := fsizeM_le_print kvs
    simp only [fsizeV, printVal, List.length_cons, List.length_append]
    omega

theorem fsizeL_le_print : ∀ xs : List Json, fsizeL xs ≤ (printElems xs).length + 1
  | [] => by simp [fsizeL, printElems]
  | [x] => by
    have h := fsizeV_le_print x
    simp only [fsizeL, printElems]
    omega
  | x :: y :: ys => by
    have h1 := fsizeV_le_print x
    have h2 := fsizeL_le_print (y :: ys)
    simp only [fsizeL, printElems, List.length_append, List.length_cons]
    simp only [fsizeL] at h2
    omega

theorem fsizeM_le_print : ∀ kvs : List (String × Json),
    fsizeM kvs ≤ (printMembers kvs).length + 1
  | [] => by simp [fsizeM, printMembers]
  | [(k, v)] => by
    have h := fsizeV_le_print v
    simp only [fsizeM, printMembers, List.length_cons, List.length_append]
    omega
  | (k, v) :: m :: ms => by
    have h1 := fsizeV_le_print v
    have h2 := fsizeM_le_print (m :: ms)
    simp only [fsizeM, printMembers, List.length_append, List.length_cons]
    simp only [fsizeM] at h2
    omega
end

theorem Json.parse_dumps (j : Json) : Json.parse (Json.dumps j) = some j := by
  show (match parseValue ((printVal j).length + 1) (printVal j) with
    | some (v, rest) => if (skipWs rest).isEmpty then some v else none
    | none => none) = some j
  have hsz : fsizeV j ≤ (printVal j).length + 1 := by
    have h := fsizeV_le_print j
    omega
  have h := (parse_print ((printVal j).length + 1)).1 j [] hsz trivial
  rw [List.append_nil] at h
  rw [h]
  rfl


theorem errorFieldOf_format (msg : String) :
    errorFieldOf (format_error_response msg) = some msg := by
  unfold errorFieldOf format_error_response
  rw [Json.parse_dumps]
  rfl

theorem errorFieldOf_message_obj (x : String) :
    errorFieldOf (Json.dumps (Json.obj [("message", Json.str x)])) = none := by
  unfold errorFieldOf
  rw [Json.parse_dumps]
  rfl

theorem get_all_mealplans_ok (B : Backend) (sd ed : Option String)
    (p pp : Option Int) (j : Json)
    (h : B 0 (BackendCall.getMealplans sd ed p pp) = .ok j) :
    get_all_mealplans B sd ed p pp =
      ([BackendCall.getMealplans sd ed p pp], Json.dumps j) := by
  simp only [get_all_mealplans, h]

theorem get_all_mealplans_err (B : Backend) (sd ed : Option String)
    (p pp : Option Int) (m : String)
    (h : B 0 (BackendCall.getMealplans sd ed p pp) = .error m) :
    get_all_mealplans B sd ed p pp =
      ([BackendCall.getMealplans sd ed p pp],
        format_error_response ("Error fetching mealplans: " ++ m)) := by
  simp only [get_all_mealplans, h]

theorem create_mealplan_ok (B : Backend) (e : MealPlanEntry) (j : Json)
    (h : B 0 e.call = .ok j) :
    create_mealplan B e = ([e.call], Json.dumps j) := by
  simp only [create_mealplan, h]

theorem create_mealplan_err (B : Backend) (e : MealPlanEntry) (m : String)
    (h : B 0 e.call = .error m) :
    create_mealplan B e =
      ([e.call], format_error_response ("Error creating mealplan entry: " ++ m)) := by
  simp only [create_mealplan, h]

theorem get_todays_mealplan_ok (B : Backend) (j : Json)
    (h : B 0 BackendCall.getTodaysMealplan = .ok j) :
    get_todays_mealplan B = ([BackendCall.getTodaysMealplan], Json.dumps j) := by
  simp only [get_todays_mealplan, h]

theorem get_todays_mealplan_err (B : Backend) (m : String)
    (h : B 0 BackendCall.getTodaysMealplan = .error m) :
    get_todays_mealplan B =
      ([BackendCall.getTodaysMealplan],
        format_error_response ("Error fetching today's mealplan: " ++ m)) := by
  simp only [get_todays_mealplan, h]

theorem bulkLoop_fail : ∀ (B : Backend) (pre : List MealPlanEntry) (k : Nat)
    (e : MealPlanEntry) (post : List MealPlanEntry) (m : String),
    (∀ jj, jj < pre.length → ∃ r, B (k + jj) ((pre.getD jj dummyEntry).call) = .ok r) →
    B (k + pre.length) e.call = .error m →
    bulkLoop B k (pre ++ e :: post) = (pre.map MealPlanEntry.call ++ [e.call], some m) := by
  intro B pre
  induction pre with
  | nil =>
    intro k e post m _ herr
    rw [List.length_nil, Nat.add_zero] at herr
    simp only [List.nil_append, bulkLoop, herr, List.map_nil]
  | cons a pre ih =>
    intro k e post m hok herr
    obtain ⟨r0, hr0⟩ := hok 0 (by simp)
    rw [List.getD_cons_zero, Nat.add_zero] at hr0
    have hok2 : ∀ jj, jj < pre.length →
        ∃ r, B (k + 1 + jj) ((pre.getD jj dummyEntry).call) = .ok r := by
      intro jj hj
      have h2 := hok (jj + 1) (by simp; omega)
      rw [List.getD_cons_succ] at h2
      rw [show k + 1 + jj = k + (jj + 1) by omega]
      exact h2
    have herr2 : B (k + 1 + pre.length) e.call = .error m := by
      rw [show k + 1 + pre.length = k + (a :: pre).length by simp; omega]
      exact herr
    simp only [List.cons_append, bulkLoop, hr0, List.append_eq]
    rw [ih (k + 1) e post m hok2 herr2]
    simp

theorem bulkLoop_allok : ∀ (B : Backend) (entries : List MealPlanEntry) (k : Nat),
    (∀ i, i < entries.length → ∃ r, B (k + i) ((entries.getD i dummyEntry).call) = .ok r) →
    (bulkLoop B k entries).2 = none := by
  intro B entries
  induction entries with
  | nil => intro k _; rfl
  | cons a entries ih =>
    intro k hok
    obtain ⟨r0, hr0⟩ := hok 0 (by simp)
    rw [List.getD_cons_zero, Nat.add_zero] at hr0
    have hok2 : ∀ i, i < entries.length →
        ∃ r, B (k + 1 + i) ((entries.getD i dummyEntry).call) = .ok r := by
      intro i hi
      have h2 := hok (i + 1) (by simp; omega)
      rw [List.getD_cons_succ] at h2
      rw [show k + 1 + i = k + (i + 1) by omega]
      exact h2
    simp only [bulkLoop, hr0, List.append_eq]
    exact ih (k + 1) hok2


theorem envelope_ne_dumps_message (msg x : String) :
    format_error_response msg ≠ Json.dumps (Json.obj [("message", Json.str x)]) := by
  intro h
  have h2 := congrArg errorFieldOf h
  rw [errorFieldOf_format, errorFieldOf_message_obj] at h2
  exact Option.noConfusion h2

/-- C1: for every behaviour of the backend fetcher, including one that raises
on every call, none of the four tool operations lets an exception escape: each
operation is a total function returning a textual payload, and whenever the
backend raised (for the bulk operation: whenever its loop stopped on a raised
exception), the payload is the uniform error envelope produced by
format_error_response, a JSON object carrying the error key. -/
theorem C1_no_exception_error_envelope :
    (∀ (B : Backend) (sd ed : Option String) (p pp : Option Int) (m : String),
      B 0 (BackendCall.getMealplans sd ed p pp) = .error m →
      ∃ em, (get_all_mealplans B sd ed p pp).2 = format_error_response em ∧
        errorFieldOf (get_all_mealplans B sd ed p pp).2 = some em) ∧
    (∀ (B : Backend) (e : MealPlanEntry) (m : String),
      B 0 e.call = .error m →
      ∃ em, (create_mealplan B e).2 = format_error_response em ∧
        errorFieldOf (create_mealplan B e).2 = some em) ∧
    (∀ (B : Backend) (entries : List MealPlanEntry) (m : String),
      (bulkLoop B 0 entries).2 = some m →
      ∃ em, (create_mealplan_bulk B entries).2 = format_error_response em ∧
        errorFieldOf (create_mealplan_bulk B entries).2 = some em) ∧
    (∀ (B : Backend) (m : String),
      B 0 BackendCall.getTodaysMealplan = .error m →
      ∃ em, (get_todays_mealplan B).2 = format_error_response em ∧
        errorFieldOf (get_todays_mealplan B).2 = some em) := by
  refine ⟨?_, ?_, ?_, ?_⟩
  · intro B sd ed p pp m h
    rw [get_all_mealplans_err B sd ed p pp m h]
    exact ⟨_, rfl, errorFieldOf_format _⟩
  · intro B e m h
    rw [create_mealplan_err B e m h]
    exact ⟨_, rfl, errorFieldOf_format _⟩
  · intro B entries m h
    simp only [create_mealplan_bulk, h]
    exact ⟨_, rfl, errorFieldOf_format _⟩
  · intro B m h
    rw [get_todays_mealplan_err B m h]
    exact ⟨_, rfl, errorFieldOf_format _⟩

/-- C1 witness: a backend that raises on any call, exercised on all four
operations at concrete arguments. -/
theorem C1_witness :
    (∃ em, (get_all_mealplans (fun _ _ => .error "boom") none none none none).2 =
        format_error_response em ∧
      errorFieldOf (get_all_mealplans (fun _ _ => .error "boom") none none none none).2 =
        some em) ∧
    (∃ em, (create_mealplan (fun _ _ => .error "boom")
        ⟨"2024-03-01", some "r1", some "Pasta", some "dinner"⟩).2 =
        format_error_response em ∧
      errorFieldOf (create_mealplan (fun _ _ => .error "boom")
        ⟨"2024-03-01", some "r1", some "Pasta", some "dinner"⟩).2 = some em) ∧
    (∃ em, (create_mealplan_bulk (fun _ _ => .error "boom")
        [⟨"2024-03-01", some "r1", some "Pasta", some "dinner"⟩]).2 =
        format_error_response em ∧
      errorFieldOf (create_mealplan_bulk (fun _ _ => .error "boom")
        [⟨"2024-03-01", some "r1", some "Pasta", some "dinner"⟩]).2 = some em) ∧
    (∃ em, (get_todays_mealplan (fun _ _ => .error "boom")).2 =
        format_error_response em ∧
      errorFieldOf (get_todays_mealplan (fun _ _ => .error "boom")).2 = some em) :=
  ⟨C1_no_exception_error_envelope.1 _ none none none none "boom" rfl,
   C1_no_exception_error_envelope.2.1 _ _ "boom" rfl,
   C1_no_exception_error_envelope.2.2.1 _ _ "boom" rfl,
   C1_no_exception_error_envelope.2.2.2 _ "boom" rfl⟩

/-- C2: when the backend create call raised at position i (the entries being
pre ++ e :: post with i = pre.length) after succeeding on all earlier
positions, the backend received exactly one create call per entry of
positions 0..i in sequence order (the trace is map call pre ++ [e.call]),
no call for any entry after position i, no further call after the failure
(no rollback), and the operation returned the error envelope, not the
success acknowledgement. -/
theorem C2_bulk_abort_no_rollback :
    ∀ (B : Backend) (pre : List MealPlanEntry) (e : MealPlanEntry)
      (post : List MealPlanEntry) (m : String),
      (∀ jj, jj < pre.length → ∃ r, B jj ((pre.getD jj dummyEntry).call) = .ok r) →
      B pre.length e.call = .error m →
      create_mealplan_bulk B (pre ++ e :: post) =
        (pre.map MealPlanEntry.call ++ [e.call],
          format_error_response ("Error creating bulk mealplan entries: " ++ m)) ∧
      (create_mealplan_bulk B (pre ++ e :: post)).2 ≠
        Json.dumps (Json.obj
          [("message", Json.str "Bulk mealplan entries created successfully")]) := by
  intro B pre e post m hok herr
  have hok0 : ∀ jj, jj < pre.length →
      ∃ r, B (0 + jj) ((pre.getD jj dummyEntry).call) = .ok r := by
    intro jj hj
    rw [Nat.zero_add]
    exact hok jj hj
  have herr0 : B (0 + pre.length) e.call = .error m := by
    rw [Nat.zero_add]
    exact herr
  have hz := bulkLoop_fail B pre 0 e post m hok0 herr0
  have hmain : create_mealplan_bulk B (pre ++ e :: post) =
      (pre.map MealPlanEntry.call ++ [e.call],
        format_error_response ("Error creating bulk mealplan entries: " ++ m)) := by
    simp only [create_mealplan_bulk, hz]
  refine ⟨hmain, ?_⟩
  rw [hmain]
  exact envelope_ne_dumps_message _ _

/-- C2 witness: entries [A, B, C] against a backend that succeeds on its
first call and raises on the second: the trace is one call for A and one
for B, none for C, and the payload is the envelope, not the
acknowledgement. -/
theorem C2_witness :
    create_mealplan_bulk
        (fun k _ => if k = 0 then .ok Json.null else .error "boom")
        ([⟨"2024-03-01", some "rA", none, none⟩] ++
          ⟨"2024-03-02", some "rB", none, none⟩ ::
          [⟨"2024-03-03", some "rC", none, none⟩]) =
      ([MealPlanEntry.call ⟨"2024-03-01", some "rA", none, none⟩] ++
        [MealPlanEntry.call ⟨"2024-03-02", some "rB", none, none⟩],
        format_error_response ("Error creating bulk mealplan entries: " ++ "boom")) ∧
      (create_mealplan_bulk
        (fun k _ => if k = 0 then .ok Json.null else .error "boom")
        ([⟨"2024-03-01", some "rA", none, none⟩] ++
          ⟨"2024-03-02", some "rB", none, none⟩ ::
          [⟨"2024-03-03", some "rC", none, none⟩])).2 ≠
        Json.dumps (Json.obj
          [("message", Json.str "Bulk mealplan entries created successfully")]) :=
  C2_bulk_abort_no_rollback _ _ _ _ "boom"
    (by
      intro jj hj
      have h0 : jj = 0 := by
        simp only [List.length_cons, List.length_nil] at hj
        omega
      subst h0
      exact ⟨Json.null, rfl⟩)
    rfl

/-- C3: create_mealplan forwards every field of its entry to the backend
create call unchanged: the single backend call carries exactly the entry
date and its optional fields as they are, so an absent optional field is
forwarded as none, never as an empty string, zero or another placeholder. -/
theorem C3_create_forwards_fields :
    ∀ (B : Backend) (e : MealPlanEntry),
      (create_mealplan B e).1 =
        [BackendCall.createMealplan e.date e.recipe_id e.title e.entry_type] := by
  intro B e
  cases hB : B 0 e.call with
  | ok j => rw [create_mealplan_ok B e j hB]; rfl
  | error m => rw [create_mealplan_err B e m hB]; rfl

/-- C4: for every combination of the four optional parameters and every
JSON structure the backend list call returns, get_all_mealplans returns
text that parses back to exactly the structure the backend returned. -/
theorem C4_serialize_parse_roundtrip :
    ∀ (B : Backend) (sd ed : Option String) (p pp : Option Int) (j : Json),
      B 0 (BackendCall.getMealplans sd ed p pp) = .ok j →
      Json.parse (get_all_mealplans B sd ed p pp).2 = some j := by
  intro B sd ed p pp j h
  rw [get_all_mealplans_ok B sd ed p pp j h]
  exact Json.parse_dumps j

/-- C4 witness: a backend returning a nested items-plus-pagination
structure, with all optional parameters absent. -/
theorem C4_witness :
    Json.parse (get_all_mealplans
      (fun _ _ => .ok (Json.obj
        [("items", Json.arr [Json.obj [("date", Json.str "2024-03-01"),
            ("title", Json.null), ("entryType", Json.str "dinner")]]),
         ("page", Json.int 1), ("perPage", Json.int 50),
         ("total", Json.int 1)]))
      none none none none).2 =
    some (Json.obj
      [("items", Json.arr [Json.obj [("date", Json.str "2024-03-01"),
          ("title", Json.null), ("entryType", Json.str "dinner")]]),
       ("page", Json.int 1), ("perPage", Json.int 50),
       ("total", Json.int 1)]) :=
  C4_serialize_parse_roundtrip _ none none none none _ rfl

/-- C5: whenever an operation fails on an underlying exception with message
m, the error field of the returned envelope holds exactly the string
"Error <doing X>: " followed by m, with <doing X> naming the operation. -/
theorem C5_error_message_format :
    (∀ (B : Backend) (sd ed : Option String) (p pp : Option Int) (m : String),
      B 0 (BackendCall.getMealplans sd ed p pp) = .error m →
      errorFieldOf (get_all_mealplans B sd ed p pp).2 =
        some ("Error fetching mealplans: " ++ m)) ∧
    (∀ (B : Backend) (e : MealPlanEntry) (m : String),
      B 0 e.call = .error m →
      errorFieldOf (create_mealplan B e).2 =
        some ("Error creating mealplan entry: " ++ m)) ∧
    (∀ (B : Backend) (entries : List MealPlanEntry) (m : String),
      (bulkLoop B 0 entries).2 = some m →
      errorFieldOf (create_mealplan_bulk B entries).2 =
        some ("Error creating bulk mealplan entries: " ++ m)) ∧
    (∀ (B : Backend) (m : String),
      B 0 BackendCall.getTodaysMealplan = .error m →
      errorFieldOf (get_todays_mealplan B).2 =
        some ("Error fetching today's mealplan: " ++ m)) := by
  refine ⟨?_, ?_, ?_, ?_⟩
  · intro B sd ed p pp m h
    rw [get_all_mealplans_err B sd ed p pp m h]
    exact errorFieldOf_format _
  · intro B e m h
    rw [create_mealplan_err B e m h]
    exact errorFieldOf_format _
  · intro B entries m h
    simp only [create_mealplan_bulk, h]
    exact errorFieldOf_format _
  · intro B m h
    rw [get_todays_mealplan_err B m h]
    exact errorFieldOf_format _

/-- C5 witness: the four message prefixes observed against a backend whose
exception message is "boom". -/
theorem C5_witness :
    errorFieldOf (get_all_mealplans (fun _ _ => .error "boom")
        none none none none).2 = some ("Error fetching mealplans: " ++ "boom") ∧
    errorFieldOf (create_mealplan (fun _ _ => .error "boom")
        ⟨"2024-03-01", none, some "Soup", none⟩).2 =
      some ("Error creating mealplan entry: " ++ "boom") ∧
    errorFieldOf (create_mealplan_bulk (fun _ _ => .error "boom")
        [⟨"2024-03-01", none, some "Soup", none⟩]).2 =
      some ("Error creating bulk mealplan entries: " ++ "boom") ∧
    errorFieldOf (get_todays_mealplan (fun _ _ => .error "boom")).2 =
      some ("Error fetching today's mealplan: " ++ "boom") :=
  ⟨C5_error_message_format.1 _ none none none none "boom" rfl,
   C5_error_message_format.2.1 _ _ "boom" rfl,
   C5_error_message_format.2.2.1 _ _ "boom" rfl,
   C5_error_message_format.2.2.2 _ "boom" rfl⟩

/-- C6: the bulk operation on an empty entry sequence issues zero backend
calls and returns the fixed success acknowledgement, whose payload carries
no error field. -/
theorem C6_bulk_empty_success :
    ∀ B : Backend,
      create_mealplan_bulk B [] = ([], Json.dumps (Json.obj
        [("message", Json.str "Bulk mealplan entries created successfully")])) ∧
      errorFieldOf (create_mealplan_bulk B []).2 = none := by
  intro B
  refine ⟨rfl, ?_⟩
  have h : (create_mealplan_bulk B []).2 = Json.dumps (Json.obj
      [("message", Json.str "Bulk mealplan entries created successfully")]) := rfl
  rw [h, errorFieldOf_message_obj]

/-- C7: whenever every backend create call succeeds, the bulk operation
returns exactly the serialization of the fixed acknowledgement object,
independent of the number of entries and of what the backend returned —
never the created entries. -/
theorem C7_bulk_success_fixed_ack :
    ∀ (B : Backend) (entries : List MealPlanEntry),
      (∀ i, i < entries.length → ∃ r, B i ((entries.getD i dummyEntry).call) = .ok r) →
      (create_mealplan_bulk B entries).2 = Json.dumps (Json.obj
        [("message", Json.str "Bulk mealplan entries created successfully")]) := by
  intro B entries hok
  have hok0 : ∀ i, i < entries.length →
      ∃ r, B (0 + i) ((entries.getD i dummyEntry).call) = .ok r := by
    intro i hi
    rw [Nat.zero_add]
    exact hok i hi
  have hz := bulkLoop_allok B entries 0 hok0
  simp only [create_mealplan_bulk, hz]

/-- C7 witness: two entries against a backend that returns a different
structure for each call; the payload is still the fixed acknowledgement. -/
theorem C7_witness :
    (create_mealplan_bulk (fun k _ => .ok (Json.int (k : Int)))
      [⟨"2024-03-01", some "rA", none, none⟩,
       ⟨"2024-03-02", none, some "Leftovers", some "lunch"⟩]).2 =
    Json.dumps (Json.obj
      [("message", Json.str "Bulk mealplan entries created successfully")]) :=
  C7_bulk_success_fixed_ack _ _ (fun i _ => ⟨Json.int (i : Int), rfl⟩)

/-- C8: every invocation of get_todays_mealplan makes the backend today
call with no arguments at all — the call it records carries no start date,
end date, page or per-page component, as the BackendCall.getTodaysMealplan
constructor is argumentless. -/
theorem C8_today_no_arguments :
    ∀ B : Backend, (get_todays_mealplan B).1 = [BackendCall.getTodaysMealplan] := by
  intro B
  cases hB : B 0 BackendCall.getTodaysMealplan with
  | ok j => rw [get_todays_mealplan_ok B j hB]
  | error m => rw [get_todays_mealplan_err B m hB]

/-- C9: each of the three non-bulk operations makes exactly one backend
call per invocation — its own corresponding call — whatever the backend
behaviour, so the call is never skipped, never retried after a failure and
never duplicated. -/
theorem C9_exactly_one_backend_call :
    (∀ (B : Backend) (sd ed : Option String) (p pp : Option Int),
      (get_all_mealplans B sd ed p pp).1 = [BackendCall.getMealplans sd ed p pp]) ∧
    (∀ (B : Backend) (e : MealPlanEntry), (create_mealplan B e).1 = [e.call]) ∧
    (∀ B : Backend, (get_todays_mealplan B).1 = [BackendCall.getTodaysMealplan]) := by
  refine ⟨?_, ?_, ?_⟩
  · intro B sd ed p pp
    cases hB : B 0 (BackendCall.getMealplans sd ed p pp) with
    | ok j => rw [get_all_mealplans_ok B sd ed p pp j hB]
    | error m => rw [get_all_mealplans_err B sd ed p pp m hB]
  · intro B e
    cases hB : B 0 e.call with
    | ok j => rw [create_mealplan_ok B e j hB]
    | error m => rw [create_mealplan_err B e m hB]
  · intro B
    cases hB : B 0 BackendCall.getTodaysMealplan with
    | ok j => rw [get_todays_mealplan_ok B j hB]
    | error m => rw [get_todays_mealplan_err B m hB]

/-- C10: get_all_mealplans performs no local validation: for every start
and end date string (malformed included) and every integer page and
per-page value (zero and negative included), the arguments reach the
backend list call unchanged, a backend success is serialized as is, and
any error in the payload is the backend error — the adapter adds no error
of its own. -/
theorem C10_no_local_validation :
    ∀ (B : Backend) (sd ed : Option String) (p pp : Option Int),
      (get_all_mealplans B sd ed p pp).1 = [BackendCall.getMealplans sd ed p pp] ∧
      (∀ j, B 0 (BackendCall.getMealplans sd ed p pp) = .ok j →
        (get_all_mealplans B sd ed p pp).2 = Json.dumps j) ∧
      (∀ m, B 0 (BackendCall.getMealplans sd ed p pp) = .error m →
        (get_all_mealplans B sd ed p pp).2 =
          format_error_response ("Error fetching mealplans: " ++ m)) := by
  intro B sd ed p pp
  refine ⟨?_, ?_, ?_⟩
  · cases hB : B 0 (BackendCall.getMealplans sd ed p pp) with
    | ok j => rw [get_all_mealplans_ok B sd ed p pp j hB]
    | error m => rw [get_all_mealplans_err B sd ed p pp m hB]
  · intro j hB
    rw [get_all_mealplans_ok B sd ed p pp j hB]
  · intro m hB
    rw [get_all_mealplans_err B sd ed p pp m hB]

/-- C10 witness: malformed date strings, a negative page and a zero
per-page are forwarded unchanged and produce a normal success payload when
the backend accepts them. -/
theorem C10_witness :
    (get_all_mealplans (fun _ _ => .ok (Json.arr []))
      (some "not-a-date") (some "13-45-9999") (some (-3)) (some 0)).1 =
      [BackendCall.getMealplans (some "not-a-date") (some "13-45-9999")
        (some (-3)) (some 0)] ∧
    (get_all_mealplans (fun _ _ => .ok (Json.arr []))
      (some "not-a-date") (some "13-45-9999") (some (-3)) (some 0)).2 =
      Json.dumps (Json.arr []) :=
  ⟨(C10_no_local_validation _ (some "not-a-date") (some "13-45-9999")
      (some (-3)) (some 0)).1,
   (C10_no_local_validation _ (some "not-a-date") (some "13-45-9999")
      (some (-3)) (some 0)).2.1 (Json.arr []) rfl⟩

end MealieMcp
